import Mathlib

/-!
Verification of the ZaloBot retrieval core: a shallow embedding of the
knowledge-base search code (`ueh_knowledge_base_mongodb.py`,
`uit_knowledge_base_mongodb.py`) and of the agent-level caching layer
(`google_search_agent_mongodb.py`), together with theorems settling the
frozen specification claims.

Modelling conventions:
  * Python floats are modelled as real numbers (`ℝ`).
  * Python dicts (the score maps, the two caches) are modelled as
    association lists with Python's semantics: insertion order is kept,
    an update of an existing key replaces the value in place, a new key
    is appended at the end.
  * `list.sort(key=..., reverse=True)` (Python's stable Timsort) is
    modelled by a stable insertion sort that places an element before
    the first element with a key that is not larger.
  * MongoDB and the Bedrock embedding provider are external
    collaborators: the text-index query (`collection.find({$text ...})`)
    is a parameter returning either the relevance-ordered documents or
    an error (a raised exception), and the query embedding is a
    parameter of type `Option (List ℝ)` (`None` = generation failed).
-/

/-! ### Association-list model of Python dicts -/

section Dict

variable {α β : Type} [DecidableEq α]

/-- `d[k] = v` on a Python dict: replace in place if the key is present,
append otherwise. -/
def dictInsert : List (α × β) → α → β → List (α × β)
  | [], k, v => [(k, v)]
  | (k', v') :: rest, k, v =>
    if k' = k then (k', v) :: rest else (k', v') :: dictInsert rest k v

/-- `d.get(k)` on a Python dict. -/
def dictGet : List (α × β) → α → Option β
  | [], _ => none
  | (k', v) :: rest, k => if k' = k then some v else dictGet rest k

/-- `dict(pairs)` / a dict comprehension: left-to-right insertion. -/
def dictOfList (l : List (α × β)) : List (α × β) :=
  l.foldl (fun d p => dictInsert d p.1 p.2) []

theorem mem_dictInsert {k : α} {v : β} {p : α × β} :
    ∀ {d : List (α × β)}, p ∈ dictInsert d k v → p = (k, v) ∨ p ∈ d := by
  intro d
  induction d with
  | nil => intro h; simpa [dictInsert] using h
  | cons q rest ih =>
    intro h
    obtain ⟨k', v'⟩ := q
    by_cases hk : k' = k
    · subst hk
      simp only [dictInsert, if_true, eq_self_iff_true, List.mem_cons] at h
      rcases h with h | h
      · exact Or.inl h
      · exact Or.inr (List.mem_cons_of_mem _ h)
    · simp only [dictInsert, if_neg hk, List.mem_cons] at h
      rcases h with h | h
      · exact Or.inr (by simp [h])
      · rcases ih h with h' | h'
        · exact Or.inl h'
        · exact Or.inr (List.mem_cons_of_mem _ h')

theorem dictGet_dictInsert_self (d : List (α × β)) (k : α) (v : β) :
    dictGet (dictInsert d k v) k = some v := by
  induction d with
  | nil => simp [dictInsert, dictGet]
  | cons q rest ih =>
    obtain ⟨k', v'⟩ := q
    by_cases hk : k' = k
    · simp [dictInsert, dictGet, hk]
    · simp [dictInsert, dictGet, hk, ih]

theorem length_dictInsert_of_not_mem {k : α} (v : β) :
    ∀ {d : List (α × β)}, dictGet d k = none →
      (dictInsert d k v).length = d.length + 1 := by
  intro d
  induction d with
  | nil => intro _; simp [dictInsert]
  | cons q rest ih =>
    intro h
    obtain ⟨k', v'⟩ := q
    by_cases hk : k' = k
    · simp [dictGet, hk] at h
    · simp only [dictGet, if_neg hk] at h
      simp [dictInsert, hk, ih h]

theorem length_dictInsert_of_mem {k : α} (v : β) :
    ∀ {d : List (α × β)}, dictGet d k ≠ none →
      (dictInsert d k v).length = d.length := by
  intro d
  induction d with
  | nil => intro h; simp [dictGet] at h
  | cons q rest ih =>
    intro h
    obtain ⟨k', v'⟩ := q
    by_cases hk : k' = k
    · simp [dictInsert, hk]
    · simp only [dictGet, if_neg hk] at h
      simp [dictInsert, hk, ih h]

theorem dictInsert_of_not_mem {k : α} (v : β) :
    ∀ {d : List (α × β)}, k ∉ d.map Prod.fst →
      dictInsert d k v = d ++ [(k, v)] := by
  intro d
  induction d with
  | nil => intro _; simp [dictInsert]
  | cons q rest ih =>
    intro h
    obtain ⟨k', v'⟩ := q
    simp only [List.map_cons, List.mem_cons] at h
    push_neg at h
    have hk : k' ≠ k := fun hkk => h.1 hkk.symm
    simp [dictInsert, hk, ih h.2]

theorem dictOfList_eq_self {l : List (α × β)} (h : (l.map Prod.fst).Nodup) :
    dictOfList l = l := by
  suffices H : ∀ (acc : List (α × β)), ((acc ++ l).map Prod.fst).Nodup →
      l.foldl (fun d p => dictInsert d p.1 p.2) acc = acc ++ l by
    simpa [dictOfList] using H [] (by simpa using h)
  clear h
  induction l with
  | nil => intro acc _; simp
  | cons p rest ih =>
    intro acc hacc
    obtain ⟨k, v⟩ := p
    have hsplit := hacc
    rw [List.map_append, List.nodup_append] at hsplit
    have hknot : k ∉ acc.map Prod.fst := by
      intro hmem
      exact hsplit.2.2 hmem (by simp)
    have step : dictInsert acc k v = acc ++ [(k, v)] :=
      dictInsert_of_not_mem v hknot
    have hacc' : (((acc ++ [(k, v)]) ++ rest).map Prod.fst).Nodup := by
      simpa using hacc
    calc (List.foldl (fun d p => dictInsert d p.1 p.2) acc ((k, v) :: rest))
        = List.foldl (fun d p => dictInsert d p.1 p.2) (acc ++ [(k, v)]) rest := by
          simp [step]
      _ = (acc ++ [(k, v)]) ++ rest := ih (acc ++ [(k, v)]) hacc'
      _ = acc ++ (k, v) :: rest := by simp

theorem mem_dictOfList {l : List (α × β)} {p : α × β}
    (h : p ∈ dictOfList l) : p ∈ l := by
  suffices H : ∀ (acc : List (α × β)),
      p ∈ l.foldl (fun d q => dictInsert d q.1 q.2) acc → p ∈ acc ∨ p ∈ l by
    rcases H [] h with h' | h'
    · simp at h'
    · exact h'
  clear h
  induction l with
  | nil => intro acc h'; exact Or.inl h'
  | cons q rest ih =>
    intro acc h'
    obtain ⟨k, v⟩ := q
    rcases ih (dictInsert acc k v) h' with h'' | h''
    · rcases mem_dictInsert h'' with h3 | h3
      · exact Or.inr (by simp [h3])
      · exact Or.inl h3
    · exact Or.inr (List.mem_cons_of_mem _ h'')

end Dict

/-! ### Stable descending sort, modelling `list.sort(key=..., reverse=True)` -/

section SortDesc

variable {α : Type} (key : α → ℝ)

/-- Insert `a` before the first element whose key is not larger than
`key a`; this is the unique stable descending insertion. -/
noncomputable def insertDescStable (a : α) : List α → List α
  | [] => [a]
  | b :: l => if key a < key b then b :: insertDescStable a l else a :: b :: l

/-- Stable descending sort by `key`, the behaviour of Python's
`list.sort(key=..., reverse=True)`. -/
noncomputable def sortDescBy : List α → List α
  | [] => []
  | a :: l => insertDescStable key a (sortDescBy l)

theorem mem_insertDescStable {a x : α} {l : List α} :
    x ∈ insertDescStable key a l ↔ x = a ∨ x ∈ l := by
  induction l with
  | nil => simp [insertDescStable]
  | cons b bs ih =>
    by_cases h : key a < key b
    · simp only [insertDescStable, if_pos h, List.mem_cons, ih]
      tauto
    · simp only [insertDescStable, if_neg h, List.mem_cons]

theorem length_insertDescStable (a : α) (l : List α) :
    (insertDescStable key a l).length = l.length + 1 := by
  induction l with
  | nil => simp [insertDescStable]
  | cons b bs ih =>
    by_cases h : key a < key b
    · simp [insertDescStable, if_pos h, ih]
    · simp [insertDescStable, if_neg h]

theorem sorted_insertDescStable {a : α} {l : List α}
    (h : l.Pairwise (fun x y => key y ≤ key x)) :
    (insertDescStable key a l).Pairwise (fun x y => key y ≤ key x) := by
  induction l with
  | nil => simp [insertDescStable]
  | cons b bs ih =>
    rcases List.pairwise_cons.mp h with ⟨hb, hbs⟩
    by_cases hab : key a < key b
    · simp only [insertDescStable, if_pos hab]
      refine List.pairwise_cons.mpr ⟨?_, ih hbs⟩
      intro x hx
      rcases (mem_insertDescStable key).mp hx with rfl | hx'
      · exact le_of_lt hab
      · exact hb x hx'
    · simp only [insertDescStable, if_neg hab]
      refine List.pairwise_cons.mpr ⟨?_, h⟩
      intro x hx
      rcases List.mem_cons.mp hx with rfl | hx'
      · exact le_of_not_lt hab
      · exact le_trans (hb x hx') (le_of_not_lt hab)

theorem mem_sortDescBy {x : α} {l : List α} :
    x ∈ sortDescBy key l ↔ x ∈ l := by
  induction l with
  | nil => simp [sortDescBy]
  | cons a as ih =>
    simp [sortDescBy, mem_insertDescStable, ih]

theorem length_sortDescBy (l : List α) :
    (sortDescBy key l).length = l.length := by
  induction l with
  | nil => simp [sortDescBy]
  | cons a as ih =>
    simp [sortDescBy, length_insertDescStable, ih]

theorem sorted_sortDescBy (l : List α) :
    (sortDescBy key l).Pairwise (fun x y => key y ≤ key x) := by
  induction l with
  | nil => simp [sortDescBy]
  | cons a as ih =>
    exact sorted_insertDescStable key ih

end SortDesc

/-! ### `UEHMongoKnowledgeBase` (src/ueh_knowledge_base_mongodb.py)

A MongoDB document is a dict; the fields touched by the search methods
are modelled as optional fields (`none` = key absent / popped). -/

namespace UEHMongoKnowledgeBase

/-- A document as stored in / returned from the `documents` collection. -/
structure UEHDoc where
  _id : Option String := none
  content_id : String := ""
  url : Option String := none
  title : String := ""
  content : String := ""
  embedding : Option (List ℝ) := none
  score : Option ℝ := none
  similarity_score : Option ℝ := none
  combined_score : Option ℝ := none

/-- The document identity used by `hybrid_search`:
`doc.get('url', doc.get('content_id', ''))`. -/
def docKey (doc : UEHDoc) : String :=
  doc.url.getD doc.content_id

/-- `np.dot` on two equal-length 1-D float vectors. -/
def dotList (v1 v2 : List ℝ) : ℝ :=
  (List.zipWith (fun x y => x * y) v1 v2).sum

/-- `np.linalg.norm`: the Euclidean norm. -/
noncomputable def normList (v : List ℝ) : ℝ :=
  Real.sqrt (dotList v v)

/-- `cosine_similarity` (lines 190-206).  `np.dot` raises on 1-D vectors
of different lengths; the surrounding `except` turns that into `0.0`.
A zero norm on either side also yields `0.0` instead of dividing. -/
noncomputable def cosine_similarity (vec1 vec2 : List ℝ) : ℝ :=
  if vec1.length ≠ vec2.length then 0
  else
    let dot_product := dotList vec1 vec2
    let norm1 := normList vec1
    let norm2 := normList vec2
    if norm1 = 0 ∨ norm2 = 0 then 0
    else dot_product / (norm1 * norm2)

/-- `full_text_search` (lines 130-157).  The MongoDB text-index query
(match, relevance sort and limit all happen server-side) is the
parameter `findText`; `Except.error` models a raised exception, which
the method swallows, returning `[]`.  On success every document has
`_id`, `embedding` and the projected `score` popped. -/
def full_text_search (findText : String → Nat → Except String (List UEHDoc))
    (query : String) (limit : Nat) : List UEHDoc :=
  match findText query limit with
  | .error _ => []
  | .ok docs =>
      docs.map (fun doc => { doc with _id := none, embedding := none, score := none })

/-- `vector_search` (lines 208-252).  `query_embedding` is the result of
`generate_embedding` (`none` = failure); `enable_vector_search` is the
instance flag.  On the vector path: scan documents whose `embedding`
exists and is truthy, keep those with similarity at or above the
threshold, pop `_id`/`embedding`, attach `similarity_score`, stable-sort
descending and truncate. -/
noncomputable def vector_search (enable_vector_search : Bool)
    (coll : List UEHDoc) (query_embedding : Option (List ℝ))
    (findText : String → Nat → Except String (List UEHDoc))
    (query : String) (limit : Nat) (similarity_threshold : ℝ) : List UEHDoc :=
  if enable_vector_search = false then full_text_search findText query limit
  else
    match query_embedding with
    | none => full_text_search findText query limit
    | some qe =>
      if qe.isEmpty then full_text_search findText query limit
      else
        let documents := coll.filter (fun doc => doc.embedding.isSome)
        let results := documents.filterMap (fun doc =>
          match doc.embedding with
          | some emb =>
            if emb.isEmpty then none
            else
              let similarity := cosine_similarity qe emb
              if similarity_threshold ≤ similarity then
                some { doc with _id := none, embedding := none,
                                similarity_score := some similarity }
              else none
          | none => none)
        (sortDescBy (fun x => x.similarity_score.getD 0) results).take limit

/-- The dict comprehension
`{key(doc): 1.0/(i+1) for i, doc in enumerate(text_results)}`
as the underlying pair list (`i` is the running 0-based rank). -/
noncomputable def text_scores_list : Nat → List UEHDoc → List (String × ℝ)
  | _, [] => []
  | i, doc :: rest => (docKey doc, 1 / ((i : ℝ) + 1)) :: text_scores_list (i + 1) rest

/-- `hybrid_search` (lines 254-299): reciprocal-rank scores for the
lexical list, raw similarity for the vector list, union keyed by
`docKey` (later entries override), weighted sum, stable descending sort,
truncate to `limit`. -/
noncomputable def hybrid_search (enable_vector_search : Bool)
    (coll : List UEHDoc) (query_embedding : Option (List ℝ))
    (findText : String → Nat → Except String (List UEHDoc))
    (query : String) (limit : Nat) (text_weight vector_weight : ℝ) : List UEHDoc :=
  if enable_vector_search = false then full_text_search findText query limit
  else
    let text_results := full_text_search findText query (limit * 2)
    let text_scores := dictOfList (text_scores_list 0 text_results)
    let vector_results :=
      vector_search enable_vector_search coll query_embedding findText query
        (limit * 2) (3 / 10)
    let vector_scores :=
      dictOfList (vector_results.map
        (fun doc => (docKey doc, doc.similarity_score.getD 0)))
    let all_docs :=
      dictOfList ((text_results ++ vector_results).map (fun doc => (docKey doc, doc)))
    let combined_results := all_docs.map (fun p =>
      let text_score := (dictGet text_scores p.1).getD 0
      let vector_score := (dictGet vector_scores p.1).getD 0
      { p.2 with
          combined_score := some (text_weight * text_score + vector_weight * vector_score),
          similarity_score := none })
    (sortDescBy (fun x => x.combined_score.getD 0) combined_results).take limit

end UEHMongoKnowledgeBase

/-! ### Agent layer (src/google_search_agent_mongodb.py)

`search_uit_knowledge` queries the UIT knowledge base
(`uit_knowledge_base_mongodb.py`, whose `full_text_search` returns plain
documents) behind a TTL query cache, and `GoogleSearchAgent.chat` sits
behind a bounded response cache.  The md5 hex digest is modelled as an
uninterpreted parameter `md5hex`; the agent invocation producing the
answer text is the parameter `result_text`; wall-clock instants are
naturals (seconds). -/

/-- Python's `str.lower()`: character-wise lower-casing (an executable
model; `String.toLower` does the same but does not reduce in the
kernel). -/
def pyLower (s : String) : String :=
  ⟨s.data.map Char.toLower⟩

/-- Python's `str.strip()`: drop whitespace from both ends. -/
def pyStrip (s : String) : String :=
  ⟨((s.data.dropWhile Char.isWhitespace).reverse.dropWhile Char.isWhitespace).reverse⟩

/-- A document as returned by the UIT knowledge base full-text search. -/
structure UITDoc where
  title : String := ""
  url : String := ""
  content : String := ""
deriving DecidableEq

/-- One entry of `QUERY_CACHE`: `{'result': ..., 'timestamp': ...}`. -/
structure CacheEntry where
  result : String
  timestamp : Nat
deriving DecidableEq

/-- `CACHE_TTL = 3600` (line 30). -/
def CACHE_TTL : Nat := 3600

/-- `RESPONSE_CACHE_MAX_SIZE = 100` (line 34). -/
def RESPONSE_CACHE_MAX_SIZE : Nat := 100

/-- The query-cache key (line 63):
`hashlib.md5(query.lower().encode()).hexdigest()` — the digest of the
lower-cased query; the raw query is not whitespace-trimmed. -/
def cache_key (md5hex : String → String) (query : String) : String :=
  md5hex (pyLower query)

/-- The cache-hit check (lines 64-68): a stored entry is served only when
it exists and is younger than `CACHE_TTL`; an expired entry is ignored
(the code falls through to a fresh search). -/
def lookup_cached (cache : List (String × CacheEntry)) (key : String)
    (now : Nat) : Option String :=
  match dictGet cache key with
  | some cached =>
      if now - cached.timestamp < CACHE_TTL then some cached.result else none
  | none => none

/-- One formatted result block (lines 82-90), `i` counting from 1. -/
def format_item (i : Nat) (item : UITDoc) : String :=
  toString i ++ ". " ++ item.title ++ "\n" ++
  "   URL: " ++ item.url ++ "\n" ++
  "   Nội dung: " ++
    (if item.content.length > 400 then item.content.take 400 ++ "..."
     else item.content) ++ "\n\n"

/-- The `for i, item in enumerate(results, 1)` accumulation loop. -/
def format_loop : Nat → String → List UITDoc → String
  | _, response, [] => response
  | i, response, item :: rest => format_loop (i + 1) (response ++ format_item i item) rest

/-- The full response text built from a non-empty result list. -/
def format_query_results (results : List UITDoc) : String :=
  format_loop 1 "Thông tin từ cơ sở dữ liệu UIT:\n\n" results

/-- `search_uit_knowledge` (lines 47-103).  `kb_available` models
`uit_kb is not None`; `searchOutcome` is the full-text search call,
`Except.error` being a raised exception.  The query cache is written
only on a successful search with at least one result. -/
def search_uit_knowledge (md5hex : String → String) (kb_available : Bool)
    (cache : List (String × CacheEntry)) (now : Nat) (query : String)
    (searchOutcome : Except String (List UITDoc)) :
    String × List (String × CacheEntry) :=
  if kb_available = false then
    ("Knowledge base not available. Please search online.", cache)
  else
    let key := cache_key md5hex query
    match lookup_cached cache key now with
    | some cachedResult => (cachedResult, cache)
    | none =>
      match searchOutcome with
      | .error e =>
          ("Error searching knowledge base: " ++ e ++ ". Please try online search.", cache)
      | .ok results =>
          if results.isEmpty then
            ("No information found in UIT knowledge base for: " ++ query ++
               ". Please search online for the latest information.", cache)
          else
            let response := format_query_results results
            (response, dictInsert cache key { result := response, timestamp := now })

namespace GoogleSearchAgent

/-- `GoogleSearchAgent.chat` (lines 301-342), restricted to the cache
behaviour around the agent invocation: `result_text` is the answer the
agent produced for `message`.  A cached answer is returned as-is; a
fresh answer is stored only while the cache holds strictly fewer than
`RESPONSE_CACHE_MAX_SIZE` entries. -/
def chat (RESPONSE_CACHE : List (String × String)) (message : String)
    (result_text : String) : String × List (String × String) :=
  let key := pyStrip (pyLower message)
  match dictGet RESPONSE_CACHE key with
  | some cached => (cached, RESPONSE_CACHE)
  | none =>
      if RESPONSE_CACHE.length < RESPONSE_CACHE_MAX_SIZE then
        (result_text, dictInsert RESPONSE_CACHE key result_text)
      else
        (result_text, RESPONSE_CACHE)

end GoogleSearchAgent

/-! ### Helper facts about the agent layer -/

theorem length_le_format_loop :
    ∀ (l : List UITDoc) (i : Nat) (s : String),
      s.length ≤ (format_loop i s l).length := by
  intro l
  induction l with
  | nil => intro i s; simp [format_loop]
  | cons item rest ih =>
    intro i s
    rw [format_loop]
    exact le_trans (by simp [String.length_append]) (ih (i + 1) (s ++ format_item i item))

theorem format_query_results_ne_empty (results : List UITDoc) :
    format_query_results results ≠ "" := by
  intro h
  have hlen : ("Thông tin từ cơ sở dữ liệu UIT:\n\n").length ≤
      (format_query_results results).length :=
    length_le_format_loop results 1 _
  rw [h] at hlen
  exact absurd hlen (by decide)

/-! ### C3 — the bounded response cache in `GoogleSearchAgent.chat` -/

/-- C3: the response cache never exceeds `RESPONSE_CACHE_MAX_SIZE = 100`
entries: `chat` inserts only while the size is strictly below the
capacity; once at (or beyond) capacity the cache is left unchanged while
a fresh answer for a distinct (uncached) message is still returned. -/
theorem chat_response_cache_bounded (cache : List (String × String))
    (message result_text : String) :
    (cache.length ≤ RESPONSE_CACHE_MAX_SIZE →
      (GoogleSearchAgent.chat cache message result_text).2.length ≤ RESPONSE_CACHE_MAX_SIZE)
    ∧ (RESPONSE_CACHE_MAX_SIZE ≤ cache.length →
      (GoogleSearchAgent.chat cache message result_text).2 = cache)
    ∧ (cache.length = RESPONSE_CACHE_MAX_SIZE →
      dictGet cache (pyStrip (pyLower message)) = none →
      (GoogleSearchAgent.chat cache message result_text).1 = result_text) := by
  cases hget : dictGet cache (pyStrip (pyLower message)) with
  | some cached =>
    refine ⟨fun h => ?_, fun _ => ?_, fun _ hnone => ?_⟩
    · simpa [GoogleSearchAgent.chat, hget] using h
    · simp [GoogleSearchAgent.chat, hget]
    · exact absurd hnone (by simp)
  | none =>
    by_cases hlen : cache.length < RESPONSE_CACHE_MAX_SIZE
    · refine ⟨fun _ => ?_, fun hge => ?_, fun _ _ => ?_⟩
      · have : (dictInsert cache (pyStrip (pyLower message)) result_text).length =
            cache.length + 1 := length_dictInsert_of_not_mem _ hget
        simp only [GoogleSearchAgent.chat, hget, if_pos hlen]
        omega
      · exact absurd hlen (by omega)
      · simp [GoogleSearchAgent.chat, hget, if_pos hlen]
    · refine ⟨fun h => ?_, fun _ => ?_, fun _ _ => ?_⟩
      · simpa [GoogleSearchAgent.chat, hget, if_neg hlen] using h
      · simp [GoogleSearchAgent.chat, hget, if_neg hlen]
      · simp [GoogleSearchAgent.chat, hget, if_neg hlen]

/-- A response cache already filled to capacity. -/
def fullResponseCache : List (String × String) :=
  List.replicate RESPONSE_CACHE_MAX_SIZE ("k", "v")

/-- Witness for C3 at a concrete full cache and uncached message. -/
theorem chat_response_cache_bounded_witness :
    ((GoogleSearchAgent.chat fullResponseCache "Hoc phi UIT?" "answer text").2.length ≤
      RESPONSE_CACHE_MAX_SIZE)
    ∧ ((GoogleSearchAgent.chat fullResponseCache "Hoc phi UIT?" "answer text").2 =
      fullResponseCache)
    ∧ ((GoogleSearchAgent.chat fullResponseCache "Hoc phi UIT?" "answer text").1 =
      "answer text") :=
  ⟨(chat_response_cache_bounded fullResponseCache "Hoc phi UIT?" "answer text").1 (by decide),
   (chat_response_cache_bounded fullResponseCache "Hoc phi UIT?" "answer text").2.1 (by decide),
   (chat_response_cache_bounded fullResponseCache "Hoc phi UIT?" "answer text").2.2
     (by decide) (by decide)⟩

/-! ### C9 — query-cache writes happen only for non-empty results -/

/-- C9: `search_uit_knowledge` leaves the query cache untouched when the
search raises or returns no results (returning the error / "No
information found" message), and every entry it ever stores holds a
non-empty formatted payload. -/
theorem search_uit_knowledge_write_policy (md5hex : String → String)
    (cache : List (String × CacheEntry)) (now : Nat) (query : String) :
    (∀ e, (search_uit_knowledge md5hex true cache now query (Except.error e)).2 = cache)
    ∧ ((search_uit_knowledge md5hex true cache now query (Except.ok [])).2 = cache)
    ∧ (lookup_cached cache (cache_key md5hex query) now = none →
        ((search_uit_knowledge md5hex true cache now query (Except.ok [])).1 =
          "No information found in UIT knowledge base for: " ++ query ++
            ". Please search online for the latest information.")
        ∧ ∀ e, (search_uit_knowledge md5hex true cache now query (Except.error e)).1 =
            "Error searching knowledge base: " ++ e ++ ". Please try online search.")
    ∧ (∀ outcome, (∀ p ∈ cache, (p : String × CacheEntry).2.result ≠ "") →
        ∀ p ∈ (search_uit_knowledge md5hex true cache now query outcome).2,
          p.2.result ≠ "") := by
  cases hlook : lookup_cached cache (cache_key md5hex query) now with
  | some r =>
    refine ⟨fun e => ?_, ?_, fun hnone => ?_, fun outcome hinv p hp => ?_⟩
    · simp [search_uit_knowledge, hlook]
    · simp [search_uit_knowledge, hlook]
    · exact absurd hnone (by simp)
    · have : (search_uit_knowledge md5hex true cache now query outcome).2 = cache := by
        simp [search_uit_knowledge, hlook]
      rw [this] at hp
      exact hinv p hp
  | none =>
    refine ⟨fun e => ?_, ?_, fun _ => ⟨?_, fun e => ?_⟩, fun outcome hinv p hp => ?_⟩
    · simp [search_uit_knowledge, hlook]
    · simp [search_uit_knowledge, hlook]
    · simp [search_uit_knowledge, hlook]
    · simp [search_uit_knowledge, hlook]
    · cases outcome with
      | error e =>
        rw [show (search_uit_knowledge md5hex true cache now query (Except.error e)).2 =
            cache by simp [search_uit_knowledge, hlook]] at hp
        exact hinv p hp
      | ok results =>
        cases hres : results.isEmpty with
        | true =>
          rw [show (search_uit_knowledge md5hex true cache now query (Except.ok results)).2 =
              cache by simp [search_uit_knowledge, hlook, hres]] at hp
          exact hinv p hp
        | false =>
          rw [show (search_uit_knowledge md5hex true cache now query (Except.ok results)).2 =
              dictInsert cache (cache_key md5hex query)
                { result := format_query_results results, timestamp := now } by
            simp [search_uit_knowledge, hlook, hres]] at hp
          rcases mem_dictInsert hp with hp' | hp'
          · rw [hp']
            exact format_query_results_ne_empty results
          · exact hinv p hp'

/-- Witness for C9 at concrete inputs (identity digest, empty cache). -/
theorem search_uit_knowledge_write_policy_witness :
    ((search_uit_knowledge (fun s => s) true [] 0 "hoc phi" (Except.error "down")).2 =
      ([] : List (String × CacheEntry)))
    ∧ ((search_uit_knowledge (fun s => s) true [] 0 "hoc phi" (Except.ok [])).1 =
      "No information found in UIT knowledge base for: hoc phi. Please search online for the latest information.")
    ∧ (∀ p ∈ (search_uit_knowledge (fun s => s) true [] 0 "hoc phi"
          (Except.ok [{ title := "t", url := "u", content := "c" }])).2,
        p.2.result ≠ "") := by
  refine ⟨(search_uit_knowledge_write_policy (fun s => s) [] 0 "hoc phi").1 "down", ?_, ?_⟩
  · have h := ((search_uit_knowledge_write_policy (fun s => s) [] 0 "hoc phi").2.2.1
      (by decide)).1
    exact h.trans (by decide)
  · exact (search_uit_knowledge_write_policy (fun s => s) [] 0 "hoc phi").2.2.2
      (Except.ok [{ title := "t", url := "u", content := "c" }]) (by simp)

/-! ### C5 — the query-cache key normalization -/

/-- C5 (amended): the query-cache key is the digest of the *case-folded*
query only (no whitespace trimming).  Two raw queries equal after
case-folding compute the same key, and within the TTL window the second
query is served from the entry written by the first. -/
theorem query_cache_casefold_shared_entry (md5hex : String → String)
    (cache : List (String × CacheEntry)) (now1 now2 : Nat) (q1 q2 : String)
    (results : List UITDoc) (outcome2 : Except String (List UITDoc))
    (hfold : pyLower q1 = pyLower q2)
    (hmiss : lookup_cached cache (cache_key md5hex q1) now1 = none)
    (hres : results.isEmpty = false)
    (httl : now2 - now1 < CACHE_TTL) :
    cache_key md5hex q1 = cache_key md5hex q2
    ∧ (search_uit_knowledge md5hex true
        (search_uit_knowledge md5hex true cache now1 q1 (Except.ok results)).2
        now2 q2 outcome2).1 =
      (search_uit_knowledge md5hex true cache now1 q1 (Except.ok results)).1 := by
  have hkey : cache_key md5hex q1 = cache_key md5hex q2 := by
    simp [cache_key, hfold]
  refine ⟨hkey, ?_⟩
  have hfirst : search_uit_knowledge md5hex true cache now1 q1 (Except.ok results) =
      (format_query_results results,
        dictInsert cache (cache_key md5hex q1)
          { result := format_query_results results, timestamp := now1 }) := by
    simp [search_uit_knowledge, hmiss, hres]
  rw [hfirst]
  have hhit : lookup_cached
      (dictInsert cache (cache_key md5hex q1)
        { result := format_query_results results, timestamp := now1 })
      (cache_key md5hex q2) now2 =
      some (format_query_results results) := by
    rw [← hkey]
    simp [lookup_cached, dictGet_dictInsert_self, httl]
  simp [search_uit_knowledge, hhit]

/-- Witness for C5's amended statement: `"HOC Phi"` and `"hoc phi"`
are equal after case-folding, so the second call is a cache hit. -/
theorem query_cache_casefold_shared_entry_witness :
    cache_key (fun s => s) "HOC Phi" = cache_key (fun s => s) "hoc phi"
    ∧ (search_uit_knowledge (fun s => s) true
        (search_uit_knowledge (fun s => s) true [] 0 "HOC Phi"
          (Except.ok [{ title := "t", url := "u", content := "c" }])).2
        5 "hoc phi" (Except.error "down")).1 =
      (search_uit_knowledge (fun s => s) true [] 0 "HOC Phi"
        (Except.ok [{ title := "t", url := "u", content := "c" }])).1 :=
  query_cache_casefold_shared_entry (fun s => s) [] 0 5 "HOC Phi" "hoc phi"
    [{ title := "t", url := "u", content := "c" }] (Except.error "down")
    (by decide) (by decide) (by decide) (by decide)

/-- Counterexample to C5 as stated: `"abc"` and `" abc"` are equal after
case-folding *and whitespace-trimming*, yet (instantiating the digest
with the identity function) their cache keys differ, and the second
query is not served from the entry written by the first even inside the
TTL window — the code never trims the query. -/
theorem query_cache_trim_cex :
    pyStrip (pyLower "abc") = pyStrip (pyLower " abc")
    ∧ cache_key (fun s => s) "abc" ≠ cache_key (fun s => s) " abc"
    ∧ (search_uit_knowledge (fun s => s) true
        (search_uit_knowledge (fun s => s) true [] 0 "abc"
          (Except.ok [{ title := "t", url := "u", content := "c" }])).2
        1 " abc" (Except.error "down")).1 ≠
      (search_uit_knowledge (fun s => s) true [] 0 "abc"
        (Except.ok [{ title := "t", url := "u", content := "c" }])).1 := by
  decide

/-! ### C4 — `full_text_search` error behaviour -/

open UEHMongoKnowledgeBase in
/-- C4 (amended): `full_text_search` returns `[]` as a normal result
when no terms match, and *also* returns `[]` when the underlying
text-index query raises: the exception is swallowed (logged), never
surfaced to the caller. -/
theorem full_text_search_swallows_index_errors
    (findText : String → Nat → Except String (List UEHDoc))
    (query : String) (limit : Nat) :
    (findText query limit = Except.ok [] →
      full_text_search findText query limit = [])
    ∧ (∀ e, findText query limit = Except.error e →
      full_text_search findText query limit = []) := by
  constructor
  · intro h
    simp [full_text_search, h]
  · intro e h
    simp [full_text_search, h]

open UEHMongoKnowledgeBase in
/-- Witness for C4's amended statement at concrete oracles. -/
theorem full_text_search_swallows_index_errors_witness :
    full_text_search (fun _ _ => Except.ok []) "tuyen sinh" 3 = []
    ∧ full_text_search (fun _ _ => Except.error "boom") "tuyen sinh" 3 = [] :=
  ⟨(full_text_search_swallows_index_errors (fun _ _ => Except.ok []) "tuyen sinh" 3).1 rfl,
   (full_text_search_swallows_index_errors (fun _ _ => Except.error "boom") "tuyen sinh" 3).2
     "boom" rfl⟩

open UEHMongoKnowledgeBase in
/-- Counterexample to C4 as stated: with an unavailable index (the query
raises `IndexUnavailable`), the call still returns the normal empty
result, indistinguishable from a no-match query — no error is surfaced. -/
theorem full_text_search_index_error_cex :
    full_text_search (fun _ _ => Except.error "IndexUnavailable") "hoc phi" 10 = []
    ∧ full_text_search (fun _ _ => Except.ok []) "hoc phi" 10 = [] :=
  ⟨rfl, rfl⟩

/-! ### Facts about `dotList`, `normList` and `cosine_similarity` -/

namespace UEHMongoKnowledgeBase

theorem dotList_nil_left (w : List ℝ) : dotList [] w = 0 := by
  simp [dotList]

theorem dotList_nil_right (v : List ℝ) : dotList v [] = 0 := by
  cases v <;> simp [dotList]

theorem dotList_cons (a b : ℝ) (v w : List ℝ) :
    dotList (a :: v) (b :: w) = a * b + dotList v w := by
  simp [dotList]

theorem dotList_comm : ∀ (v w : List ℝ), dotList v w = dotList w v := by
  intro v
  induction v with
  | nil => intro w; rw [dotList_nil_left, dotList_nil_right]
  | cons a v ih =>
    intro w
    cases w with
    | nil => rw [dotList_nil_left, dotList_nil_right]
    | cons b w => rw [dotList_cons, dotList_cons, ih, mul_comm]

theorem dotList_self_nonneg : ∀ v : List ℝ, 0 ≤ dotList v v := by
  intro v
  induction v with
  | nil => simp [dotList]
  | cons a v ih =>
    rw [dotList_cons]
    nlinarith [mul_self_nonneg a]

/-- Cauchy-Schwarz for `dotList` (the zip truncates, which only shrinks
the left side). -/
theorem dotList_sq_le : ∀ v w : List ℝ, dotList v w ^ 2 ≤ dotList v v * dotList w w := by
  intro v
  induction v with
  | nil =>
    intro w
    rw [dotList_nil_left, dotList_nil_left]
    simp
  | cons a v ih =>
    intro w
    cases w with
    | nil =>
      rw [dotList_nil_right, dotList_nil_right]
      simp
    | cons b w =>
      have hD := ih w
      have hV := dotList_self_nonneg v
      have hW := dotList_self_nonneg w
      have hsub : 0 ≤ dotList v v * dotList w w - dotList v w ^ 2 :=
        sub_nonneg.mpr hD
      rw [dotList_cons, dotList_cons, dotList_cons]
      rcases eq_or_lt_of_le hV with hV0 | hVpos
      · have hD0 : dotList v w = 0 := by
          have h2 : dotList v w ^ 2 ≤ 0 := by nlinarith
          have h3 : dotList v w ^ 2 = 0 := le_antisymm h2 (sq_nonneg _)
          exact pow_eq_zero_iff two_ne_zero |>.mp h3
        rw [hD0, ← hV0]
        nlinarith [mul_nonneg (mul_self_nonneg a) hW]
      · nlinarith [sq_nonneg (a * dotList v w - b * dotList v v),
          mul_nonneg (le_of_lt hVpos) hsub,
          mul_nonneg (mul_self_nonneg a) hsub, hVpos]

theorem normList_nonneg (v : List ℝ) : 0 ≤ normList v :=
  Real.sqrt_nonneg _

theorem mul_self_normList (v : List ℝ) : normList v * normList v = dotList v v :=
  Real.mul_self_sqrt (dotList_self_nonneg v)

theorem dotList_ne_zero_of_normList {v : List ℝ} (h : normList v ≠ 0) :
    dotList v v ≠ 0 := by
  intro h0
  exact h (by simp [normList, h0])

theorem dotList_smul_right (c : ℝ) :
    ∀ v w : List ℝ, dotList v (w.map (fun x => c * x)) = c * dotList v w := by
  intro v
  induction v with
  | nil => intro w; rw [dotList_nil_left, dotList_nil_left, mul_zero]
  | cons a v ih =>
    intro w
    cases w with
    | nil => simp [dotList_nil_right]
    | cons b w =>
      simp only [List.map_cons, dotList_cons, ih]
      ring

theorem dotList_smul_left (c : ℝ) (v w : List ℝ) :
    dotList (v.map (fun x => c * x)) w = c * dotList v w := by
  rw [dotList_comm, dotList_smul_right, dotList_comm]

theorem normList_map_smul {c : ℝ} (hc : 0 < c) (v : List ℝ) :
    normList (v.map (fun x => c * x)) = c * normList v := by
  have h : dotList (v.map (fun x => c * x)) (v.map (fun x => c * x)) =
      (c * c) * dotList v v := by
    rw [dotList_smul_left, dotList_smul_right]
    ring
  rw [normList, h, Real.sqrt_mul (by positivity), Real.sqrt_mul_self_eq_abs,
    abs_of_pos hc, normList]

end UEHMongoKnowledgeBase

open UEHMongoKnowledgeBase in
/-- C8: `cosine_similarity` is symmetric on equal-length vectors, always
bounded in `[-1, 1]`, returns `0.0` when either argument has zero norm,
and yields `1.0` (well within the `1e-6` tolerance) on equal non-zero
vectors and on positive scalar multiples of a non-zero vector. -/
theorem cosine_similarity_props :
    (∀ a b : List ℝ, a.length = b.length →
      cosine_similarity a b = cosine_similarity b a)
    ∧ (∀ a b : List ℝ, -1 ≤ cosine_similarity a b ∧ cosine_similarity a b ≤ 1)
    ∧ (∀ a b : List ℝ, normList a = 0 ∨ normList b = 0 → cosine_similarity a b = 0)
    ∧ (∀ a : List ℝ, normList a ≠ 0 → |cosine_similarity a a - 1| ≤ 1 / 1000000)
    ∧ (∀ (a : List ℝ) (c : ℝ), 0 < c → normList a ≠ 0 →
        |cosine_similarity a (a.map (fun x => c * x)) - 1| ≤ 1 / 1000000) := by
  have hzero : ∀ a b : List ℝ, normList a = 0 ∨ normList b = 0 →
      cosine_similarity a b = 0 := by
    intro a b h
    simp only [cosine_similarity]
    by_cases hlen : a.length ≠ b.length
    · rw [if_pos hlen]
    · rw [if_neg hlen, if_pos h]
  refine ⟨?_, ?_, hzero, ?_, ?_⟩
  · -- symmetry
    intro a b hlen
    simp only [cosine_similarity, hlen, ne_eq, not_true_eq_false, if_false]
    by_cases h : normList a = 0 ∨ normList b = 0
    · rw [if_pos h, if_pos h.symm]
    · rw [if_neg h, if_neg (fun hc => h hc.symm), dotList_comm a b, mul_comm]
  · -- bounded in [-1, 1]
    intro a b
    simp only [cosine_similarity]
    by_cases hlen : a.length ≠ b.length
    · rw [if_pos hlen]; norm_num
    · rw [if_neg hlen]
      by_cases h : normList a = 0 ∨ normList b = 0
      · rw [if_pos h]; norm_num
      · rw [if_neg h]
        push_neg at h
        have hna : 0 < normList a := lt_of_le_of_ne (normList_nonneg a) (Ne.symm h.1)
        have hnb : 0 < normList b := lt_of_le_of_ne (normList_nonneg b) (Ne.symm h.2)
        have habs : |dotList a b| ≤ normList a * normList b := by
          have h1 : |dotList a b| = Real.sqrt (dotList a b ^ 2) :=
            (Real.sqrt_sq_eq_abs _).symm
          rw [h1]
          calc Real.sqrt (dotList a b ^ 2)
              ≤ Real.sqrt (dotList a a * dotList b b) :=
                Real.sqrt_le_sqrt (dotList_sq_le a b)
            _ = normList a * normList b := Real.sqrt_mul (dotList_self_nonneg a) _
        have hbound : |dotList a b / (normList a * normList b)| ≤ 1 := by
          rw [abs_div, abs_of_pos (by positivity : (0:ℝ) < normList a * normList b)]
          exact (div_le_one (by positivity)).mpr habs
        exact abs_le.mp hbound
  · -- equal non-zero vectors give exactly 1
    intro a ha
    have hd : dotList a a ≠ 0 := dotList_ne_zero_of_normList ha
    have hcos : cosine_similarity a a = 1 := by
      simp only [cosine_similarity, ne_eq, not_true_eq_false, if_false, or_self]
      rw [if_neg ha, mul_self_normList]
      exact div_self hd
    rw [hcos]
    norm_num
  · -- positive scalar multiples give exactly 1
    intro a c hc ha
    have hd : dotList a a ≠ 0 := dotList_ne_zero_of_normList ha
    have hlen : (a.map (fun x => c * x)).length = a.length := List.length_map _ _
    have hnb : normList (a.map (fun x => c * x)) = c * normList a :=
      normList_map_smul hc a
    have hcos : cosine_similarity a (a.map (fun x => c * x)) = 1 := by
      simp only [cosine_similarity, hlen, ne_eq, not_true_eq_false, if_false]
      rw [if_neg (by
        push_neg
        exact ⟨ha, by rw [hnb]; exact mul_ne_zero (ne_of_gt hc) ha⟩)]
      rw [dotList_smul_right, hnb,
        show normList a * (c * normList a) = c * (normList a * normList a) by ring,
        mul_self_normList]
      exact div_self (mul_ne_zero (ne_of_gt hc) hd)
    rw [hcos]
    norm_num

open UEHMongoKnowledgeBase in
/-- Witness for C8 at concrete vectors. -/
theorem cosine_similarity_props_witness :
    cosine_similarity [1, 2] [3, 4] = cosine_similarity [3, 4] [1, 2]
    ∧ (-1 ≤ cosine_similarity [1, 2] [3, 4] ∧ cosine_similarity [1, 2] [3, 4] ≤ 1)
    ∧ cosine_similarity [0, 0] [3, 4] = 0
    ∧ |cosine_similarity [3, 4] [3, 4] - 1| ≤ 1 / 1000000
    ∧ |cosine_similarity [3, 4] ([3, 4].map (fun x => (2:ℝ) * x)) - 1| ≤ 1 / 1000000 := by
  have hnorm : normList [(3:ℝ), 4] ≠ 0 := by
    have : dotList [(3:ℝ), 4] [3, 4] = 25 := by
      simp [dotList]
      norm_num
    simp only [normList, this]
    rw [show (25:ℝ) = 5 ^ 2 by norm_num, Real.sqrt_sq (by norm_num)]
    norm_num
  have hzero : normList [(0:ℝ), 0] = 0 := by
    have : dotList [(0:ℝ), 0] [0, 0] = 0 := by simp [dotList]
    simp [normList, this]
  exact ⟨cosine_similarity_props.1 [1, 2] [3, 4] rfl,
    cosine_similarity_props.2.1 [1, 2] [3, 4],
    cosine_similarity_props.2.2.1 [0, 0] [3, 4] (Or.inl hzero),
    cosine_similarity_props.2.2.2.1 [3, 4] hnorm,
    cosine_similarity_props.2.2.2.2 [3, 4] 2 (by norm_num) hnorm⟩

/-! ### Facts about `vector_search` -/

namespace UEHMongoKnowledgeBase

theorem cosine_self_eq_one {q : List ℝ} (hq : 0 < dotList q q) :
    cosine_similarity q q = 1 := by
  have hd : dotList q q ≠ 0 := ne_of_gt hq
  have hn : normList q ≠ 0 := by
    simp only [normList]
    exact ne_of_gt (Real.sqrt_pos.mpr hq)
  simp only [cosine_similarity, ne_eq, not_true_eq_false, if_false, or_self]
  rw [if_neg hn, mul_self_normList]
  exact div_self hd

/-- On the vector path (`enable_vector_search = True`, a non-empty query
embedding obtained) `vector_search` is the scan-filter-sort-truncate
pipeline. -/
theorem vector_search_vector_path (coll : List UEHDoc) {q : List ℝ}
    (hq : q.isEmpty = false)
    (findText : String → Nat → Except String (List UEHDoc))
    (query : String) (limit : Nat) (thr : ℝ) :
    vector_search true coll (some q) findText query limit thr =
      (sortDescBy (fun x => x.similarity_score.getD 0)
        ((coll.filter (fun doc => doc.embedding.isSome)).filterMap (fun doc =>
          match doc.embedding with
          | some emb =>
            if emb.isEmpty then none
            else
              if thr ≤ cosine_similarity q emb then
                some { doc with _id := none, embedding := none,
                                similarity_score := some (cosine_similarity q emb) }
              else none
          | none => none))).take limit := by
  simp [vector_search, hq]

/-- Members of the vector-path output come from a stored document with a
non-null, non-empty embedding whose similarity clears the threshold. -/
theorem mem_vector_search_vector_path {coll : List UEHDoc} {q : List ℝ}
    (hq : q.isEmpty = false)
    {findText : String → Nat → Except String (List UEHDoc)}
    {query : String} {limit : Nat} {thr : ℝ} {d : UEHDoc}
    (hd : d ∈ vector_search true coll (some q) findText query limit thr) :
    ∃ src ∈ coll, ∃ emb, src.embedding = some emb ∧ emb.isEmpty = false ∧
      thr ≤ cosine_similarity q emb ∧
      d = { src with
            _id := none,
            embedding := none,
            similarity_score := some (cosine_similarity q emb) } := by
  rw [vector_search_vector_path coll hq findText query limit thr] at hd
  have hd1 := List.mem_of_mem_take hd
  rw [mem_sortDescBy] at hd1
  obtain ⟨src, hsrc, hmap⟩ := List.mem_filterMap.mp hd1
  have hsrc' : src ∈ coll := List.mem_of_mem_filter hsrc
  cases hemb : src.embedding with
  | none => rw [hemb] at hmap; simp at hmap
  | some emb =>
    rw [hemb] at hmap
    by_cases hthr : thr ≤ cosine_similarity q emb
    · cases hempty : emb.isEmpty with
      | true => simp [hempty] at hmap
      | false =>
        simp only [hempty, Bool.false_eq_true, if_false, if_pos hthr,
          Option.some.injEq] at hmap
        exact ⟨src, hsrc', emb, hemb, hempty, hthr, hmap.symm⟩
    · cases hempty : emb.isEmpty with
      | true => simp [hempty] at hmap
      | false => simp [hempty, hthr] at hmap

end UEHMongoKnowledgeBase

open UEHMongoKnowledgeBase in
/-- C2 (amended): whenever the vector path actually runs (vector search
enabled and a non-empty query embedding obtained), every returned
document *is* the stripped form of a stored document carrying a
non-null, non-empty `embedding`.  When the embedding cannot be obtained
the method falls back to full-text results, which may include documents
without embeddings (see the counterexample). -/
theorem vector_search_only_embedded_docs (coll : List UEHDoc) (q : List ℝ)
    (hq : q.isEmpty = false)
    (findText : String → Nat → Except String (List UEHDoc))
    (query : String) (limit : Nat) (thr : ℝ) :
    ∀ d ∈ vector_search true coll (some q) findText query limit thr,
      ∃ src ∈ coll, ∃ emb, src.embedding = some emb ∧ emb.isEmpty = false ∧
        d = { src with
              _id := none,
              embedding := none,
              similarity_score := some (cosine_similarity q emb) } := by
  intro d hd
  obtain ⟨src, hsrc, emb, hemb, hempty, _, hdef⟩ := mem_vector_search_vector_path hq hd
  exact ⟨src, hsrc, emb, hemb, hempty, hdef⟩

open UEHMongoKnowledgeBase in
/-- A stored document with no `embedding` field. -/
def docNoEmb : UEHDoc :=
  { content_id := "d1", url := some "u1", title := "t", content := "c" }

open UEHMongoKnowledgeBase in
/-- Counterexample to C2 as stated: with vector search enabled but the
query embedding unavailable (`generate_embedding` returned `None`),
`vector_search` falls back to full-text search and returns a document
whose stored `embedding` is absent. -/
theorem vector_search_no_embedding_cex :
    vector_search true [docNoEmb] none (fun _ _ => Except.ok [docNoEmb]) "q" 10 (1 / 2) =
      [{ docNoEmb with _id := none, embedding := none, score := none }]
    ∧ docNoEmb.embedding = none :=
  ⟨rfl, rfl⟩

open UEHMongoKnowledgeBase in
/-- A stored document embedded as the unit vector `[1]`. -/
def docEmb1 : UEHDoc :=
  { content_id := "e1", url := some "ue1", title := "te", content := "ce",
    embedding := some [1] }


open UEHMongoKnowledgeBase in
/-- C6: on the vector path every returned document carries a similarity
score computed against the query embedding that clears the threshold;
the list is sorted descending by similarity and holds at most `limit`
documents. -/
theorem vector_search_threshold_sorted_limit (coll : List UEHDoc) (q : List ℝ)
    (hq : q.isEmpty = false)
    (findText : String → Nat → Except String (List UEHDoc))
    (query : String) (limit : Nat) (thr : ℝ) :
    (∀ d ∈ vector_search true coll (some q) findText query limit thr,
      ∃ src ∈ coll, ∃ emb, src.embedding = some emb ∧
        d.similarity_score = some (cosine_similarity q emb) ∧
        thr ≤ cosine_similarity q emb)
    ∧ (vector_search true coll (some q) findText query limit thr).Pairwise
        (fun x y => y.similarity_score.getD 0 ≤ x.similarity_score.getD 0)
    ∧ (vector_search true coll (some q) findText query limit thr).length ≤ limit := by
  refine ⟨?_, ?_, ?_⟩
  · intro d hd
    obtain ⟨src, hsrc, emb, hemb, hempty, hthr, hdef⟩ :=
      mem_vector_search_vector_path hq hd
    exact ⟨src, hsrc, emb, hemb, by rw [hdef], hthr⟩
  · rw [vector_search_vector_path coll hq findText query limit thr]
    exact (sorted_sortDescBy _ _).sublist (List.take_sublist _ _)
  · rw [vector_search_vector_path coll hq findText query limit thr]
    rw [List.length_take]
    exact min_le_left _ _

namespace UEHMongoKnowledgeBase

/-- Evaluation of `vector_search` on a two-document collection whose
embeddings both equal the (non-degenerate) query embedding: both score
exactly 1, the stable sort keeps them in scan order, and the truncation
keeps the *first* stored document. -/
theorem vector_search_pair_tie (d1 d2 : UEHDoc) {q : List ℝ}
    (h1 : d1.embedding = some q) (h2 : d2.embedding = some q)
    (hq : 0 < dotList q q) {thr : ℝ} (hthr : thr ≤ 1)
    (findText : String → Nat → Except String (List UEHDoc)) (query : String) :
    vector_search true [d1, d2] (some q) findText query 1 thr =
      [{ d1 with _id := none, embedding := none, similarity_score := some 1 }] := by
  have hqne : q.isEmpty = false := by
    cases q with
    | nil => simp [dotList] at hq
    | cons a as => rfl
  have hcos : cosine_similarity q q = 1 := cosine_self_eq_one hq
  rw [vector_search_vector_path [d1, d2] hqne findText query 1 thr]
  simp only [List.filter_cons, List.filter_nil, h1, h2, Option.isSome_some,
    if_true, List.filterMap_cons, List.filterMap_nil, hqne, hcos,
    Bool.false_eq_true, if_false, if_pos hthr, sortDescBy, insertDescStable,
    Option.getD_some, lt_self_iff_false, List.take_succ_cons, List.take_zero]

end UEHMongoKnowledgeBase

open UEHMongoKnowledgeBase in
/-- A second stored document embedded as the unit vector `[1]`. -/
def docEmb2 : UEHDoc :=
  { content_id := "e2", url := some "ue2", title := "te2", content := "ce2",
    embedding := some [1] }

open UEHMongoKnowledgeBase in
/-- Witness for C6 at a concrete two-document collection. -/
theorem vector_search_threshold_sorted_limit_witness :
    (∃ src ∈ [docEmb1, docEmb2], ∃ emb, src.embedding = some emb ∧
      ({ docEmb1 with
         _id := none,
         embedding := none,
         similarity_score := some 1 } : UEHDoc).similarity_score =
        some (cosine_similarity [1] emb) ∧
      (1 / 2 : ℝ) ≤ cosine_similarity [1] emb)
    ∧ (vector_search true [docEmb1, docEmb2] (some [1])
        (fun _ _ => Except.ok []) "q" 1 (1 / 2)).Pairwise
        (fun x y => y.similarity_score.getD 0 ≤ x.similarity_score.getD 0)
    ∧ (vector_search true [docEmb1, docEmb2] (some [1])
        (fun _ _ => Except.ok []) "q" 1 (1 / 2)).length ≤ 1 := by
  have hT := vector_search_threshold_sorted_limit [docEmb1, docEmb2] [1] rfl
    (fun _ _ => Except.ok []) "q" 1 (1 / 2)
  have heval := vector_search_pair_tie docEmb1 docEmb2 rfl rfl
    (by norm_num [dotList]) (show (1 / 2 : ℝ) ≤ 1 by norm_num)
    (fun _ _ => Except.ok []) "q"
  refine ⟨hT.1 _ ?_, hT.2.1, hT.2.2⟩
  rw [heval]
  exact List.mem_singleton_self _

open UEHMongoKnowledgeBase in
/-- C7 (amended): for two stored documents whose embeddings both equal
the (non-degenerate) query embedding, `vector_search(limit=1,
threshold=0.99)` returns exactly one of them with similarity exactly 1;
the tie is broken by position in the collection scan order (the stable
sort keeps the first stored document first), not by `content_id`. -/
theorem vector_search_tie_scan_order (d1 d2 : UEHDoc) (q : List ℝ)
    (h1 : d1.embedding = some q) (h2 : d2.embedding = some q)
    (hq : 0 < dotList q q)
    (findText : String → Nat → Except String (List UEHDoc)) (query : String) :
    vector_search true [d1, d2] (some q) findText query 1 (99 / 100) =
      [{ d1 with _id := none, embedding := none, similarity_score := some 1 }] :=
  vector_search_pair_tie d1 d2 h1 h2 hq
    (show (99 / 100 : ℝ) ≤ 1 by norm_num) findText query

open UEHMongoKnowledgeBase in
/-- A stored document with `content_id = "a"` embedded as `[1]`. -/
def docIdA : UEHDoc :=
  { content_id := "a", url := some "urlA", title := "A", embedding := some [1] }

open UEHMongoKnowledgeBase in
/-- A stored document with `content_id = "b"` embedded as `[1]`. -/
def docIdB : UEHDoc :=
  { content_id := "b", url := some "urlB", title := "B", embedding := some [1] }

open UEHMongoKnowledgeBase in
/-- Witness for C7's amended statement at concrete documents. -/
theorem vector_search_tie_scan_order_witness :
    vector_search true [docIdB, docIdA] (some [1])
        (fun _ _ => Except.ok []) "q" 1 (99 / 100) =
      [{ docIdB with _id := none, embedding := none, similarity_score := some 1 }] :=
  vector_search_tie_scan_order docIdB docIdA [1] rfl rfl
    (by norm_num [dotList]) (fun _ _ => Except.ok []) "q"

open UEHMongoKnowledgeBase in
/-- Counterexample to C7 as stated: scanning `[docIdB, docIdA]` (with
`content_id`s `"b"` then `"a"`), the single returned document is the one
with `content_id = "b"` — the first in scan order — although ordering by
`content_id` would select `"a"`. -/
theorem vector_search_tie_content_id_cex :
    (vector_search true [docIdB, docIdA] (some [1])
        (fun _ _ => Except.ok []) "q" 1 (99 / 100)).map
        (fun d => d.content_id) = ["b"]
    ∧ docIdA.content_id < docIdB.content_id := by
  constructor
  · rw [vector_search_pair_tie docIdB docIdA rfl rfl
      (by norm_num [dotList]) (show (99 / 100 : ℝ) ≤ 1 by norm_num)
      (fun _ _ => Except.ok []) "q"]
    rfl
  · rw [String.lt_iff_toList_lt]
    decide

namespace UEHMongoKnowledgeBase

theorem mem_full_text_search {findText : String → Nat → Except String (List UEHDoc)}
    {query : String} {limit : Nat} {d : UEHDoc}
    (hd : d ∈ full_text_search findText query limit) :
    ∃ docs x, findText query limit = Except.ok docs ∧ x ∈ docs ∧
      d = { x with _id := none, embedding := none, score := none } := by
  cases hft : findText query limit with
  | error e => simp [full_text_search, hft] at hd
  | ok docs =>
    simp only [full_text_search, hft] at hd
    obtain ⟨x, hx, hdx⟩ := List.mem_map.mp hd
    exact ⟨docs, x, rfl, hx, hdx.symm⟩

theorem full_text_search_strips {findText : String → Nat → Except String (List UEHDoc)}
    {query : String} {limit : Nat} {d : UEHDoc}
    (hd : d ∈ full_text_search findText query limit) :
    d._id = none ∧ d.embedding = none := by
  obtain ⟨docs, x, _, _, hdx⟩ := mem_full_text_search hd
  rw [hdx]
  exact ⟨rfl, rfl⟩

theorem vector_search_strips (enable : Bool) (coll : List UEHDoc)
    (qe : Option (List ℝ))
    (findText : String → Nat → Except String (List UEHDoc))
    (query : String) (limit : Nat) (thr : ℝ) :
    ∀ d ∈ vector_search enable coll qe findText query limit thr,
      d._id = none ∧ d.embedding = none := by
  intro d hd
  cases enable with
  | false =>
    simp only [vector_search, if_pos rfl] at hd
    exact full_text_search_strips hd
  | true =>
    cases qe with
    | none =>
      simp only [vector_search] at hd
      rw [if_neg (by simp)] at hd
      exact full_text_search_strips hd
    | some q =>
      cases hqe : q.isEmpty with
      | true =>
        simp only [vector_search, hqe] at hd
        rw [if_neg (by simp)] at hd
        exact full_text_search_strips hd
      | false =>
        obtain ⟨src, _, emb, _, _, _, hdef⟩ := mem_vector_search_vector_path hqe hd
        rw [hdef]
        exact ⟨rfl, rfl⟩

end UEHMongoKnowledgeBase

open UEHMongoKnowledgeBase in
/-- C10: every document returned by `full_text_search`, `vector_search`
or `hybrid_search` has `_id` and `embedding` removed, and
`hybrid_search` results additionally carry no `similarity_score` — only
`combined_score`.  (The `findText` hypothesis records that stored
documents never carry the transient `similarity_score` field.) -/
theorem search_results_strip_internal_fields (enable : Bool)
    (coll : List UEHDoc) (qe : Option (List ℝ))
    (findText : String → Nat → Except String (List UEHDoc))
    (query : String) (limit : Nat) (thr text_weight vector_weight : ℝ)
    (hclean : ∀ q' l' docs, findText q' l' = Except.ok docs →
      ∀ x ∈ docs, x.similarity_score = none) :
    (∀ d ∈ full_text_search findText query limit,
      d._id = none ∧ d.embedding = none)
    ∧ (∀ d ∈ vector_search enable coll qe findText query limit thr,
      d._id = none ∧ d.embedding = none)
    ∧ (∀ d ∈ hybrid_search enable coll qe findText query limit
        text_weight vector_weight,
      d._id = none ∧ d.embedding = none ∧ d.similarity_score = none) := by
  have hfts_sim : ∀ {q' l' d}, d ∈ full_text_search findText q' l' →
      d.similarity_score = none := by
    intro q' l' d hd
    obtain ⟨docs, x, hok, hx, hdx⟩ := mem_full_text_search hd
    rw [hdx]
    exact hclean q' l' docs hok x hx
  refine ⟨fun d hd => full_text_search_strips hd,
    vector_search_strips enable coll qe findText query limit thr, ?_⟩
  intro d hd
  cases enable with
  | false =>
    simp only [hybrid_search, if_pos rfl] at hd
    exact ⟨(full_text_search_strips hd).1, (full_text_search_strips hd).2,
      hfts_sim hd⟩
  | true =>
    simp only [hybrid_search] at hd
    rw [if_neg (by simp)] at hd
    have hd1 := List.mem_of_mem_take hd
    rw [mem_sortDescBy] at hd1
    obtain ⟨p, hp, hdf⟩ := List.mem_map.mp hd1
    have hp' := mem_dictOfList hp
    obtain ⟨doc, hdoc, hpd⟩ := List.mem_map.mp hp'
    rw [← hdf, ← hpd]
    have hstrip : doc._id = none ∧ doc.embedding = none := by
      rcases List.mem_append.mp hdoc with hmem | hmem
      · exact full_text_search_strips hmem
      · exact vector_search_strips true coll qe findText query (limit * 2)
          (3 / 10) doc hmem
    exact ⟨hstrip.1, hstrip.2, rfl⟩

open UEHMongoKnowledgeBase in
/-- Witness for C10 at concrete inputs. -/
theorem search_results_strip_internal_fields_witness :
    (∀ d ∈ full_text_search (fun _ _ => Except.ok [docEmb1]) "q" 3,
      d._id = none ∧ d.embedding = none)
    ∧ (∀ d ∈ vector_search true [docEmb1] (some [1])
        (fun _ _ => Except.ok [docEmb1]) "q" 3 (1 / 2),
      d._id = none ∧ d.embedding = none)
    ∧ (∀ d ∈ hybrid_search true [docEmb1] (some [1])
        (fun _ _ => Except.ok [docEmb1]) "q" 3 (3 / 10) (7 / 10),
      d._id = none ∧ d.embedding = none ∧ d.similarity_score = none) :=
  search_results_strip_internal_fields true [docEmb1] (some [1])
    (fun _ _ => Except.ok [docEmb1]) "q" 3 (1 / 2) (3 / 10) (7 / 10)
    (by
      intro q' l' docs hok x hx
      cases hok
      simp only [List.mem_singleton] at hx
      rw [hx]
      rfl)

/-! ### C1 — the hybrid fusion scores -/

namespace UEHMongoKnowledgeBase

/-- The claim's lexical component: reciprocal rank `1/(i+1)` at the
document key's 0-based position in the lexical result list, `0` when
absent. -/
noncomputable def lexComponent (text_results : List UEHDoc) (k : String) : ℝ :=
  match text_results.findIdx? (fun d => decide (docKey d = k)) with
  | some i => 1 / ((i : ℝ) + 1)
  | none => 0

/-- The claim's vector component: the document's cosine
`similarity_score` in the vector result list, `0` when absent. -/
noncomputable def vecComponent (vector_results : List UEHDoc) (k : String) : ℝ :=
  match vector_results.find? (fun d => decide (docKey d = k)) with
  | some d => d.similarity_score.getD 0
  | none => 0

theorem text_scores_list_keys : ∀ (l : List UEHDoc) (i : Nat),
    (text_scores_list i l).map Prod.fst = l.map docKey := by
  intro l
  induction l with
  | nil => intro i; rfl
  | cons d rest ih => intro i; simp [text_scores_list, ih]

theorem find_text_scores_list : ∀ (l : List UEHDoc) (i : Nat) (k : String),
    (text_scores_list i l).find? (fun p => decide (p.1 = k)) =
      (l.findIdx? (fun d => decide (docKey d = k)) i).map
        (fun j => (k, 1 / ((j : ℝ) + 1))) := by
  intro l
  induction l with
  | nil => intro i k; rfl
  | cons d rest ih =>
    intro i k
    rw [text_scores_list, List.find?_cons, List.findIdx?_cons]
    by_cases hk : docKey d = k
    · simp [hk]
    · simp only [hk, decide_False, Bool.false_eq_true, if_false]
      exact ih (i + 1) k

theorem find_vector_scores_list : ∀ (l : List UEHDoc) (k : String),
    (l.map (fun doc => (docKey doc, doc.similarity_score.getD 0))).find?
        (fun p => decide (p.1 = k)) =
      (l.find? (fun d => decide (docKey d = k))).map
        (fun d => (docKey d, d.similarity_score.getD 0)) := by
  intro l
  induction l with
  | nil => intro k; rfl
  | cons d rest ih =>
    intro k
    rw [List.map_cons, List.find?_cons, List.find?_cons]
    by_cases hk : docKey d = k
    · simp [hk]
    · simp only [hk, decide_False]
      exact ih k

end UEHMongoKnowledgeBase

theorem dictGet_eq_find? {α β : Type} [DecidableEq α] :
    ∀ (l : List (α × β)) (k : α),
      dictGet l k = (l.find? (fun p => decide (p.1 = k))).map Prod.snd := by
  intro l
  induction l with
  | nil => intro k; rfl
  | cons q rest ih =>
    intro k
    obtain ⟨k', v⟩ := q
    rw [List.find?_cons]
    by_cases hk : k' = k
    · simp [dictGet, hk]
    · simp only [hk, decide_False]
      simp only [dictGet, if_neg hk]
      exact ih k

namespace UEHMongoKnowledgeBase

theorem dictGet_text_scores (tr : List UEHDoc) (k : String) :
    (dictGet (text_scores_list 0 tr) k).getD 0 = lexComponent tr k := by
  rw [dictGet_eq_find?, find_text_scores_list]
  cases h : tr.findIdx? (fun d => decide (docKey d = k)) with
  | none => simp [lexComponent, h]
  | some j => simp [lexComponent, h]

theorem dictGet_vector_scores (vr : List UEHDoc) (k : String) :
    (dictGet (vr.map (fun doc => (docKey doc, doc.similarity_score.getD 0))) k).getD 0 =
      vecComponent vr k := by
  rw [dictGet_eq_find?, find_vector_scores_list]
  cases h : vr.find? (fun d => decide (docKey d = k)) with
  | none => simp [vecComponent, h]
  | some x => simp [vecComponent, h]

end UEHMongoKnowledgeBase

open UEHMongoKnowledgeBase in
/-- C1: on the fusion path (vector search enabled), every document in
the hybrid result carries
`combined_score = text_weight * t + vector_weight * v`, where `t` is the
reciprocal rank `1/(i+1)` of the document's key in the lexical list (0
when absent) and `v` is its cosine `similarity_score` from the vector
list (0 when absent); the list is sorted descending by `combined_score`
and holds at most `limit` documents.  The two Nodup hypotheses reflect
the unique index on `url` (document keys are unique within each result
list). -/
theorem hybrid_search_fusion_scores (coll : List UEHDoc)
    (qe : Option (List ℝ))
    (findText : String → Nat → Except String (List UEHDoc))
    (query : String) (limit : Nat) (text_weight vector_weight : ℝ)
    (h1 : ((full_text_search findText query (limit * 2)).map docKey).Nodup)
    (h2 : ((vector_search true coll qe findText query (limit * 2) (3 / 10)).map
      docKey).Nodup) :
    (∀ d ∈ hybrid_search true coll qe findText query limit
        text_weight vector_weight,
      d.combined_score = some (text_weight *
        lexComponent (full_text_search findText query (limit * 2)) (docKey d) +
        vector_weight *
        vecComponent (vector_search true coll qe findText query (limit * 2) (3 / 10))
          (docKey d)))
    ∧ (hybrid_search true coll qe findText query limit
        text_weight vector_weight).Pairwise
        (fun x y => y.combined_score.getD 0 ≤ x.combined_score.getD 0)
    ∧ (hybrid_search true coll qe findText query limit
        text_weight vector_weight).length ≤ limit := by
  have hts : dictOfList (text_scores_list 0 (full_text_search findText query (limit * 2))) =
      text_scores_list 0 (full_text_search findText query (limit * 2)) :=
    dictOfList_eq_self (by rw [text_scores_list_keys]; exact h1)
  have hvs : dictOfList ((vector_search true coll qe findText query (limit * 2) (3 / 10)).map
      (fun doc => (docKey doc, doc.similarity_score.getD 0))) =
      (vector_search true coll qe findText query (limit * 2) (3 / 10)).map
        (fun doc => (docKey doc, doc.similarity_score.getD 0)) :=
    dictOfList_eq_self (by
      rw [List.map_map]
      simpa [Function.comp] using h2)
  refine ⟨?_, ?_, ?_⟩
  · intro d hd
    simp only [hybrid_search] at hd
    rw [if_neg (by simp)] at hd
    have hd1 := List.mem_of_mem_take hd
    rw [mem_sortDescBy] at hd1
    obtain ⟨p, hp, hdf⟩ := List.mem_map.mp hd1
    obtain ⟨doc, hdoc, hpd⟩ := List.mem_map.mp (mem_dictOfList hp)
    rw [← hdf, ← hpd, hts, hvs]
    rw [show docKey ({ doc with
        combined_score := some (text_weight *
          (dictGet (text_scores_list 0 (full_text_search findText query (limit * 2)))
            (docKey doc)).getD 0 +
          vector_weight *
          (dictGet ((vector_search true coll qe findText query (limit * 2) (3 / 10)).map
            (fun doc => (docKey doc, doc.similarity_score.getD 0)))
            (docKey doc)).getD 0),
        similarity_score := none } : UEHDoc) = docKey doc from rfl]
    rw [show ({ doc with
        combined_score := some (text_weight *
          (dictGet (text_scores_list 0 (full_text_search findText query (limit * 2)))
            (docKey doc)).getD 0 +
          vector_weight *
          (dictGet ((vector_search true coll qe findText query (limit * 2) (3 / 10)).map
            (fun doc => (docKey doc, doc.similarity_score.getD 0)))
            (docKey doc)).getD 0),
        similarity_score := none } : UEHDoc).combined_score =
      some (text_weight *
        (dictGet (text_scores_list 0 (full_text_search findText query (limit * 2)))
          (docKey doc)).getD 0 +
        vector_weight *
        (dictGet ((vector_search true coll qe findText query (limit * 2) (3 / 10)).map
          (fun doc => (docKey doc, doc.similarity_score.getD 0)))
          (docKey doc)).getD 0) from rfl]
    rw [dictGet_text_scores, dictGet_vector_scores]
  · simp only [hybrid_search]
    rw [if_neg (by simp)]
    exact (sorted_sortDescBy _ _).sublist (List.take_sublist _ _)
  · simp only [hybrid_search]
    rw [if_neg (by simp)]
    rw [List.length_take]
    exact min_le_left _ _

open UEHMongoKnowledgeBase in
/-- Witness for C1: a document at lexical rank 0 that is absent from the
vector results gets `combined_score = 0.3 * (1/1) + 0.7 * 0 = 0.3` with
the default weights. -/
theorem hybrid_search_fusion_scores_witness :
    (∀ d ∈ hybrid_search true [] (some [1])
        (fun _ _ => Except.ok [docEmb1]) "q" 1 (3 / 10) (7 / 10),
      d.combined_score = some ((3 / 10) *
        lexComponent (full_text_search (fun _ _ => Except.ok [docEmb1]) "q" (1 * 2))
          (docKey d) +
        (7 / 10) *
        vecComponent (vector_search true [] (some [1])
          (fun _ _ => Except.ok [docEmb1]) "q" (1 * 2) (3 / 10)) (docKey d)))
    ∧ (hybrid_search true [] (some [1])
        (fun _ _ => Except.ok [docEmb1]) "q" 1 (3 / 10) (7 / 10)).Pairwise
        (fun x y => y.combined_score.getD 0 ≤ x.combined_score.getD 0)
    ∧ (hybrid_search true [] (some [1])
        (fun _ _ => Except.ok [docEmb1]) "q" 1 (3 / 10) (7 / 10)).length ≤ 1
    ∧ (hybrid_search true [] (some [1])
        (fun _ _ => Except.ok [docEmb1]) "q" 1 (3 / 10) (7 / 10)).map
        (fun d => d.combined_score) = [some (3 / 10)] := by
  have hT := hybrid_search_fusion_scores [] (some [1])
    (fun _ _ => Except.ok [docEmb1]) "q" 1 (3 / 10) (7 / 10)
    (by simp [full_text_search])
    (by simp [vector_search, sortDescBy])
  refine ⟨hT.1, hT.2.1, hT.2.2, ?_⟩
  simp only [hybrid_search]
  rw [if_neg (by simp)]
  norm_num [full_text_search, vector_search, text_scores_list, docKey, docEmb1,
    dictOfList, dictInsert, dictGet, sortDescBy, insertDescStable]

open UEHMongoKnowledgeBase in
/-- Witness for C2's amended statement: the document that the concrete
`vector_search` run returns is the stripped form of an embedded stored
document. -/
theorem vector_search_only_embedded_docs_witness :
    ({ docEmb1 with
       _id := none,
       embedding := none,
       similarity_score := some 1 } : UEHDoc) ∈
      vector_search true [docEmb1, docEmb2] (some [1])
        (fun _ _ => Except.ok []) "q" 1 (1 / 2)
    ∧ ∃ src ∈ [docEmb1, docEmb2], ∃ emb, src.embedding = some emb ∧
        emb.isEmpty = false ∧
        ({ docEmb1 with
           _id := none,
           embedding := none,
           similarity_score := some 1 } : UEHDoc) =
          { src with
            _id := none,
            embedding := none,
            similarity_score := some (cosine_similarity [1] emb) } := by
  have heval := vector_search_pair_tie docEmb1 docEmb2 rfl rfl
    (by norm_num [dotList]) (show (1 / 2 : ℝ) ≤ 1 by norm_num)
    (fun _ _ => Except.ok []) "q"
  have hmem : ({ docEmb1 with
      _id := none,
      embedding := none,
      similarity_score := some 1 } : UEHDoc) ∈
      vector_search true [docEmb1, docEmb2] (some [1])
        (fun _ _ => Except.ok []) "q" 1 (1 / 2) := by
    rw [heval]
    exact List.mem_singleton_self _
  exact ⟨hmem, vector_search_only_embedded_docs [docEmb1, docEmb2] [1] rfl
    (fun _ _ => Except.ok []) "q" 1 (1 / 2)
    { docEmb1 with _id := none, embedding := none, similarity_score := some 1 }
    hmem⟩
